import Mathlib

/-!
Verification of the restic-api backup/restore and scheduling subsystem.

Shallow embedding of the Python sources (`utils.py`, `schedule.py`,
`backup.py`, `app.py`).  Python strings are modelled as `List Char` where
character-level operations (strip, split, regex search) matter, and as
`String` where only equality matters.  File-system and subprocess effects
are modelled by explicit state passing: the subprocess's behaviour enters
as data (its output lines and exit code), and the mutated configuration is
returned.
-/

set_option maxHeartbeats 1000000

namespace ResticApi

/-! ## Python string primitives over `List Char`

Python's `str.strip()` with no argument removes the six ASCII whitespace
characters below from both ends. -/

/-- The characters Python's default `str.strip`/`str.split` treat as
whitespace: space, tab, newline, carriage return, vertical tab, form feed. -/
def isPySpace (c : Char) : Bool :=
  c = ' ' || c = '\t' || c = '\n' || c = '\r' || c = '\x0b' || c = '\x0c'

/-- Remove leading Python whitespace (`str.lstrip()`). -/
def pyLstrip : List Char → List Char
  | [] => []
  | c :: r => if isPySpace c then pyLstrip r else c :: r

/-- Remove trailing Python whitespace (`str.rstrip()`). -/
def pyRstrip (l : List Char) : List Char :=
  (pyLstrip l.reverse).reverse

/-- Python's `str.strip()`: remove whitespace from both ends. -/
def pyStrip (l : List Char) : List Char :=
  pyLstrip (pyRstrip l)

/-- The char list of a string literal (used for concrete inputs). -/
def strL (s : String) : List Char := s.data

/-! ## C1: `get_cron_expression`

`src/schedule.py` lines 11-32.  The Python function first parses the time
string via `hour, minute = map(int, time_str.split(':'))`, so for a time
"H:M" the local `hour` is H and `minute` is M; the embedding takes the two
parsed integers directly.  The function then builds a heterogeneous list
`output = [hour, minute]` extended with three string fields, and raises
`ValueError` (modelled as `none`) on an unknown frequency. -/

/-- A Python value in the cron-expression list: an `int` or a `str` entry. -/
inductive PyVal where
  | int (n : Int)
  | str (s : String)
  deriving DecidableEq, Repr

/-- `get_cron_expression` from `src/schedule.py`: `output = [hour, minute]`,
then `daily` extends `["*","*","*"]`, `weekly` extends `["*","*","0"]`,
`monthly` extends `["1","*","*"]`; other frequencies raise (`none`). -/
def get_cron_expression (frequency : String) (hour minute : Int) : Option (List PyVal) :=
  let base := [PyVal.int hour, PyVal.int minute]
  if frequency = "daily" then some (base ++ [.str "*", .str "*", .str "*"])
  else if frequency = "weekly" then some (base ++ [.str "*", .str "*", .str "0"])
  else if frequency = "monthly" then some (base ++ [.str "1", .str "*", .str "*"])
  else none

/-- The duplicate `get_cron_expression` from `src/app.py` lines 538-551,
which returns a 5-field cron string with the minute first:
`f"{minute} {hour} * * *"` and so on. -/
def appGetCronExpression (frequency : String) (hour minute : Int) : Option String :=
  if frequency = "daily" then some (toString minute ++ " " ++ toString hour ++ " * * *")
  else if frequency = "weekly" then some (toString minute ++ " " ++ toString hour ++ " * * 0")
  else if frequency = "monthly" then some (toString minute ++ " " ++ toString hour ++ " 1 * *")
  else none

/-! ## C4: `create_backup_schedule` trigger/record coupling

`src/schedule.py` lines 124-225.  Validation failures (malformed input,
unknown location) return before anything is persisted.  Only when
`platform.system().lower() == 'linux'` is a trigger registered
(`create_cron_job`), and only in that branch does a registration failure
abort the request; on every other platform no trigger is registered and the
schedule record is saved unconditionally. -/

/-- Externally observable outcome of one `create_backup_schedule` call. -/
structure ScheduleOutcome where
  recordPersisted : Bool
  triggerRegistered : Bool
  httpOk : Bool
  deriving DecidableEq, Repr

/-- `create_backup_schedule` from `src/schedule.py`: `validInput` stands for
the request-shape checks (lines 132-154), `locationKnown` for the location
lookup (line 169), `cronOk` for the result of `create_cron_job`. -/
def create_backup_schedule (validInput locationKnown : Bool)
    (platformName : String) (cronOk : Bool) : ScheduleOutcome :=
  if !validInput then ⟨false, false, false⟩
  else if !locationKnown then ⟨false, false, false⟩
  else if platformName = "linux" then
    if cronOk then ⟨true, true, true⟩ else ⟨false, false, false⟩
  else ⟨true, false, true⟩

/-! ## C2/C6: backup-path registration in `extract_password_and_launch_backup`

`src/utils.py` lines 58-127.  For a directory backup the path is appended to
`config['locations'][location_id]['paths']` if absent (lines 91-93); for a
command backup the token `command + ":/" + filename` is appended if absent
(lines 107-110).  Both appends happen before the subprocess is launched
(line 122 onward), so the final path list does not depend on the process's
exit code. -/

/-- Append-if-absent on a location's `paths` list (the registry mutation at
`utils.py` lines 91-93 and 108-110). -/
def appendIfAbsent (paths : List String) (p : String) : List String :=
  if p ∈ paths then paths else paths ++ [p]

/-- The backup request body: either `{type: directory, path}` or
`{type: command, command, filename}`. -/
inductive BackupSpec where
  | directory (path : String)
  | command (command filename : String)
  deriving DecidableEq, Repr

/-- The source path the invocation registers: the directory path itself, or
the synthesized `command + ":/" + filename` token (line 107). -/
def backupSourcePath : BackupSpec → String
  | .directory p => p
  | .command c f => c ++ ":/" ++ f

/-- Observable outcome of one `extract_password_and_launch_backup` call on a
location whose `paths` list is given: the final `paths` list, whether the
subprocess was launched, and whether the streamed terminal event reported
success. -/
structure LaunchResult where
  finalPaths : List String
  launched : Bool
  streamSuccess : Bool
  deriving DecidableEq, Repr

/-- `extract_password_and_launch_backup` (`utils.py` lines 58-127) reduced
to its effect on the location's `paths` and the launched stream.
`pathExists` models `os.path.exists(backup_path)` (line 87), `procExit` the
subprocess's eventual exit code. -/
def extract_password_and_launch_backup (paths : List String) (spec : BackupSpec)
    (pathExists : Bool) (procExit : Int) : LaunchResult :=
  match spec with
  | .directory p =>
      if pathExists then
        { finalPaths := appendIfAbsent paths p
          launched := true
          streamSuccess := procExit = 0 }
      else
        { finalPaths := paths, launched := false, streamSuccess := false }
  | .command c f =>
      { finalPaths := appendIfAbsent paths (c ++ ":/" ++ f)
        launched := true
        streamSuccess := procExit = 0 }

/-! ## Claim theorems (C1, C4, C6) -/

/-- C1: in `src/schedule.py`, `get_cron_expression('daily', '03:00')` yields
the list `[3, 0, "*", "*", "*"]` — the parsed hour 3 comes first and the
parsed minute 0 second — whereas the same function in `src/app.py` (and the
commented-out returns inside `schedule.py` itself) put the minute field
first, `"0 3 * * *"`.  Read as a 5-field cron expression
(minute, hour, day-of-month, month, day-of-week) the derived list has
minute field 3 = H and hour field 0 = M, contradicting the claim that the
minute field is M and the hour field is H. -/
theorem c1_cron_field_order :
    get_cron_expression "daily" 3 0 =
      some [PyVal.int 3, PyVal.int 0, PyVal.str "*", PyVal.str "*", PyVal.str "*"] ∧
    appGetCronExpression "daily" 3 0 = some "0 3 * * *" ∧
    get_cron_expression "daily" 3 0 ≠
      some [PyVal.int 0, PyVal.int 3, PyVal.str "*", PyVal.str "*", PyVal.str "*"] := by
  refine ⟨rfl, rfl, ?_⟩
  decide

/-- C4 counterexample: on a non-Linux platform (here `"windows"`), a
syntactically valid `create_backup_schedule` request registers no platform
trigger at all, yet the Schedule record is persisted — the claim "if
registration of the platform trigger does not succeed then no Schedule
record is persisted" is false there. -/
theorem c4_nonlinux_persists_without_trigger :
    (create_backup_schedule true true "windows" false).recordPersisted = true ∧
    (create_backup_schedule true true "windows" false).triggerRegistered = false := by
  decide

/-- C4 amended: all-or-nothing creation holds only on Linux — there the
record is persisted exactly when the cron trigger was registered (both
require the request to be valid and the location known), while on every
other platform no trigger is ever registered and the record is persisted
whenever validation passes. -/
theorem c4_linux_all_or_nothing (validInput locationKnown cronOk : Bool)
    (platformName : String) :
    (create_backup_schedule validInput locationKnown "linux" cronOk).recordPersisted
      = (validInput && locationKnown && cronOk) ∧
    (create_backup_schedule validInput locationKnown "linux" cronOk).triggerRegistered
      = (validInput && locationKnown && cronOk) ∧
    (platformName ≠ "linux" →
      (create_backup_schedule validInput locationKnown platformName cronOk).triggerRegistered
          = false ∧
      (create_backup_schedule validInput locationKnown platformName cronOk).recordPersisted
          = (validInput && locationKnown)) := by
  refine ⟨?_, ?_, fun hp => ?_⟩
  · cases validInput <;> cases locationKnown <;> cases cronOk <;> rfl
  · cases validInput <;> cases locationKnown <;> cases cronOk <;> rfl
  · have hif : (platformName = "linux") = False := by
      simp [hp]
    constructor <;>
      cases validInput <;> cases locationKnown <;> cases cronOk <;>
        simp [create_backup_schedule, hif]

/-- C4 witness: the amended theorem applied on the `"windows"` platform with
a valid request. -/
theorem c4_linux_all_or_nothing_witness :
    ("windows" : String) ≠ "linux" ∧
    (create_backup_schedule true true "windows" true).triggerRegistered = false ∧
    (create_backup_schedule true true "windows" true).recordPersisted = (true && true) :=
  ⟨by decide, (c4_linux_all_or_nothing true true true "windows").2.2 (by decide)⟩

/-- Registering an already-present path is a no-op (`utils.py` line 91). -/
theorem appendIfAbsent_of_mem (paths : List String) (p : String) (h : p ∈ paths) :
    appendIfAbsent paths p = paths := by
  simp [appendIfAbsent, h]

/-- C6: registering a backup path keeps `known_paths` duplicate-free —
starting from a duplicate-free list, one registration preserves
duplicate-freedom, a second registration of the same path is a no-op, and
after registering twice the list holds exactly one entry for that path. -/
theorem c6_known_paths_nodup (paths : List String) (p : String)
    (hnd : paths.Nodup) :
    (appendIfAbsent paths p).Nodup ∧
    appendIfAbsent (appendIfAbsent paths p) p = appendIfAbsent paths p ∧
    (appendIfAbsent (appendIfAbsent paths p) p).count p = 1 := by
  have hmem : p ∈ appendIfAbsent paths p := by
    by_cases h : p ∈ paths <;> simp [appendIfAbsent, h]
  have hnd' : (appendIfAbsent paths p).Nodup := by
    by_cases h : p ∈ paths
    · simpa [appendIfAbsent, h] using hnd
    · simp [appendIfAbsent, h]
      exact List.Nodup.append hnd (List.nodup_singleton p) (by simpa using h)
  have hidem : appendIfAbsent (appendIfAbsent paths p) p = appendIfAbsent paths p :=
    appendIfAbsent_of_mem _ _ hmem
  refine ⟨hnd', hidem, ?_⟩
  rw [hidem]
  exact List.count_eq_one_of_mem hnd' hmem

/-- C6 witness: the theorem applied to the concrete duplicate-free registry
`["/a"]` and path `"/b"`. -/
theorem c6_known_paths_nodup_witness :
    (["/a"] : List String).Nodup ∧
    (appendIfAbsent (appendIfAbsent ["/a"] "/b") "/b").count "/b" = 1 :=
  ⟨by decide, (c6_known_paths_nodup ["/a"] "/b" (by decide)).2.2⟩

/-- C2 counterexample: a directory backup on a location with empty
`known_paths` whose subprocess exits 1 (failure) still registers the path —
the registry is mutated even though the operation did not complete
successfully, so the claim's "a backup whose subprocess fails leaves
known_paths unchanged" is false. -/
theorem c2_failed_backup_registers_path :
    (extract_password_and_launch_backup [] (.directory "/data") true 1).streamSuccess
      = false ∧
    (extract_password_and_launch_backup [] (.directory "/data") true 1).finalPaths
      = ["/data"] ∧
    (["/data"] : List String) ≠ [] := by
  refine ⟨rfl, ?_, by decide⟩
  rfl

/-- C2 amended: the source path (directory path, or the synthesized
`<command>:/<filename>` token) is appended to the Location's `known_paths`
(if absent) before the backup subprocess is launched, so the final registry
is independent of the subprocess's exit code; whenever the backup is
launched the final list is exactly `appendIfAbsent`, and the append is a
no-op when the path is already present. -/
theorem c2_path_registered_before_launch (paths : List String) (spec : BackupSpec)
    (pathExists : Bool) (e e' : Int) :
    (extract_password_and_launch_backup paths spec pathExists e).finalPaths
      = (extract_password_and_launch_backup paths spec pathExists e').finalPaths ∧
    ((extract_password_and_launch_backup paths spec pathExists e).launched = true →
      (extract_password_and_launch_backup paths spec pathExists e).finalPaths
        = appendIfAbsent paths (backupSourcePath spec)) ∧
    (backupSourcePath spec ∈ paths →
      (extract_password_and_launch_backup paths spec pathExists e).finalPaths = paths) := by
  cases spec with
  | directory p =>
      cases pathExists with
      | false =>
          refine ⟨rfl, ?_, fun _ => rfl⟩
          intro h
          simp [extract_password_and_launch_backup] at h
      | true =>
          exact ⟨rfl, fun _ => rfl, fun hm => appendIfAbsent_of_mem _ _ hm⟩
  | command c f =>
      exact ⟨rfl, fun _ => rfl, fun hm => appendIfAbsent_of_mem _ _ hm⟩

/-- C2 witness: the amended theorem applied to a failing (`exit 1`) directory
backup of `"/data"` on a registry already holding that path. -/
theorem c2_path_registered_before_launch_witness :
    (extract_password_and_launch_backup ["/data"] (.directory "/data") true 1).launched
      = true ∧
    backupSourcePath (.directory "/data") ∈ (["/data"] : List String) ∧
    (extract_password_and_launch_backup ["/data"] (.directory "/data") true 1).finalPaths
      = ["/data"] :=
  ⟨by decide, by decide,
    (c2_path_registered_before_launch ["/data"] (.directory "/data") true 1 0).2.2
      (by decide)⟩

/-! ## C7: restore progress (`generate_restore_stream`, `src/backup.py` 192-241)

The Python loop keeps `processed_files` and `last_progress = -1`; for each
output line it increments the counter and, when a positive `total_files`
was precomputed, computes
`progress = min(int((processed_files / total_files) * 100), 100)` and emits
a progress event when the value changed and is a multiple of 5.  The
`int(...)` truncation of the float quotient is modelled by natural-number
division; the bound proved below depends only on the outer `min(..., 100)`,
not on the rounding of the quotient. -/

/-- `min(int((processed / total) * 100), 100)` for a positive `total`. -/
def pyProgress (processed total : Nat) : Nat :=
  min (processed * 100 / total) 100

/-- An event yielded by the restore stream: a percentage progress event, or
the fallback counter-only event used when no file count is available. -/
inductive RestoreEvent where
  | progress (pct processed total : Nat)
  | processedOnly (processed : Nat)
  deriving DecidableEq, Repr

/-- Loop state of `generate_restore_stream`: the `processed_files` counter,
`last_progress` (initially `-1`), and the events emitted so far. -/
structure RestoreState where
  processed : Nat
  lastProgress : Int
  events : List RestoreEvent
  deriving DecidableEq, Repr

/-- One iteration of the `for line in iter(process.stdout.readline, '')`
loop of `generate_restore_stream`. -/
def restoreStep (total : Nat) (st : RestoreState) (line : List Char) : RestoreState :=
  if line = [] then st
  else if 0 < total then
    if (pyProgress (st.processed + 1) total : Int) ≠ st.lastProgress ∧
        pyProgress (st.processed + 1) total % 5 = 0 then
      ⟨st.processed + 1, (pyProgress (st.processed + 1) total : Int),
        st.events ++ [.progress (pyProgress (st.processed + 1) total)
          (st.processed + 1) total]⟩
    else ⟨st.processed + 1, st.lastProgress, st.events⟩
  else if (st.processed + 1) % 100 = 0 then
    ⟨st.processed + 1, st.lastProgress, st.events ++ [.processedOnly (st.processed + 1)]⟩
  else ⟨st.processed + 1, st.lastProgress, st.events⟩

/-- The restore stream's loop over all subprocess output lines. -/
def generate_restore_stream (lines : List (List Char)) (total : Nat) : RestoreState :=
  lines.foldl (restoreStep total) ⟨0, -1, []⟩

/-- The computed percentage never exceeds 100, by the explicit `min`. -/
theorem pyProgress_le_100 (processed total : Nat) : pyProgress processed total ≤ 100 :=
  Nat.min_le_right _ _

/-- Invariant: every progress percentage in the state is at most 100. -/
def progressBounded (st : RestoreState) : Prop :=
  ∀ e ∈ st.events, ∀ pct pr t, e = RestoreEvent.progress pct pr t → pct ≤ 100

/-- One restore-loop step preserves the percentage bound. -/
theorem restoreStep_progressBounded (total : Nat) (st : RestoreState)
    (line : List Char) (h : progressBounded st) :
    progressBounded (restoreStep total st line) := by
  unfold restoreStep
  split_ifs with h1 h2 h3 h4 <;> try exact h
  · intro e he pct pr t he'
    rcases List.mem_append.mp he with hin | hin
    · exact h e hin pct pr t he'
    · have he2 : e = RestoreEvent.progress (pyProgress (st.processed + 1) total)
          (st.processed + 1) total := by simpa using hin
      rw [he2] at he'
      cases he'
      exact pyProgress_le_100 _ _
  · intro e he pct pr t he'
    rcases List.mem_append.mp he with hin | hin
    · exact h e hin pct pr t he'
    · have he2 : e = RestoreEvent.processedOnly (st.processed + 1) := by simpa using hin
      rw [he2] at he'
      cases he'

/-- The whole restore loop preserves the percentage bound. -/
theorem restoreFold_progressBounded (total : Nat) :
    ∀ (lines : List (List Char)) (st : RestoreState), progressBounded st →
      progressBounded (lines.foldl (restoreStep total) st) := by
  intro lines
  induction lines with
  | nil => intro st h; exact h
  | cons l ls ih =>
      intro st h
      exact ih _ (restoreStep_progressBounded total st l h)

/-- C7: for a restore with a positive precomputed file count, every progress
percentage event emitted by `generate_restore_stream` reports at most 100,
even when more output lines are observed than the precomputed count. -/
theorem c7_progress_le_100 (lines : List (List Char)) (total : Nat)
    (ht : 0 < total) :
    ∀ e ∈ (generate_restore_stream lines total).events,
      ∀ pct pr t, e = RestoreEvent.progress pct pr t → pct ≤ 100 := by
  have h0 : progressBounded ⟨0, -1, []⟩ := by
    intro e he
    simp at he
  exact restoreFold_progressBounded total lines _ h0

/-- C7 witness: three output lines against a precomputed count of one file
(more lines than files); the emitted 100% event is within the bound. -/
theorem c7_progress_le_100_witness :
    0 < 1 ∧
    RestoreEvent.progress 100 1 1 ∈
      (generate_restore_stream [strL "a", strL "b", strL "c"] 1).events ∧
    100 ≤ 100 :=
  ⟨by decide, by decide,
    c7_progress_le_100 [strL "a", strL "b", strL "c"] 1 (by decide)
      (RestoreEvent.progress 100 1 1) (by decide) 100 1 1 rfl⟩

/-! ## C8/C10: `parse_snapshots_output` (`src/backup.py` lines 10-30)

`output.strip().split('\n')`, drop the two header lines, and for every
non-blank line with at least 4 whitespace-delimited tokens build a record
`{snapshot_id: parts[0], date: ' '.join(parts[1:3]),
size: ' '.join(parts[4:6])}`. -/

/-- Python's no-argument `str.split()`: split on runs of whitespace,
discarding empty pieces.  `acc` is the current token, reversed. -/
def splitWsAux : List Char → List Char → List (List Char)
  | [], acc => if acc = [] then [] else [acc.reverse]
  | c :: r, acc =>
      if isPySpace c then
        if acc = [] then splitWsAux r [] else acc.reverse :: splitWsAux r []
      else splitWsAux r (c :: acc)

/-- Python's `line.split()`. -/
def pySplitWs (l : List Char) : List (List Char) :=
  splitWsAux l []

/-- Python's `s.split('\n')` (empty pieces kept). -/
def splitNlAux : List Char → List Char → List (List Char)
  | [], acc => [acc.reverse]
  | c :: r, acc =>
      if c = '\n' then acc.reverse :: splitNlAux r [] else splitNlAux r (c :: acc)

/-- Python's `s.split('\n')`. -/
def pySplitNl (l : List Char) : List (List Char) :=
  splitNlAux l []

/-- Python's `' '.join(pieces)`. -/
def joinSp : List (List Char) → List Char
  | [] => []
  | [x] => x
  | x :: y :: r => x ++ ' ' :: joinSp (y :: r)

/-- One parsed snapshot row:
`{'snapshot_id': ..., 'date': ..., 'size': ...}`. -/
structure SnapshotRecord where
  snapshot_id : List Char
  date : List Char
  size : List Char
  deriving DecidableEq, Repr

/-- The record built at `backup.py` lines 19-28 from the token list of one
row: `parts[0]`, `' '.join(parts[1:3])`, `' '.join(parts[4:6])`. -/
def mkSnapshotRecord (parts : List (List Char)) : SnapshotRecord :=
  { snapshot_id := parts.headD []
    date := joinSp ((parts.drop 1).take 2)
    size := joinSp ((parts.drop 4).take 2) }

/-- The per-line branch of the parsing loop: blank lines and lines with
fewer than 4 tokens contribute nothing. -/
def lineRecord (line : List Char) : Option SnapshotRecord :=
  if pyStrip line = [] then none
  else if 4 ≤ (pySplitWs line).length then some (mkSnapshotRecord (pySplitWs line))
  else none

/-- `parse_snapshots_output` from `src/backup.py`: strip, split into lines,
skip the two header lines, collect the surviving rows in order. -/
def parse_snapshots_output (output : List Char) : List SnapshotRecord :=
  ((pySplitNl (pyStrip output)).drop 2).filterMap lineRecord

/-! Auxiliary facts: a line whose `strip()` is empty consists of whitespace
only, and such a line has no tokens. -/

/-- If `lstrip` erases the whole list, everything in it was whitespace. -/
theorem pyLstrip_eq_nil_forall (l : List Char) (h : pyLstrip l = []) :
    ∀ c ∈ l, isPySpace c := by
  induction l with
  | nil => intro c hc; cases hc
  | cons a r ih =>
      intro c hc
      by_cases ha : isPySpace a
      · rw [pyLstrip, if_pos ha] at h
        rcases hc with _ | hc
        · exact ha
        · exact ih h c (by assumption)
      · rw [pyLstrip, if_neg ha] at h
        cases h

/-- `lstrip` removes a whitespace prefix and keeps the rest. -/
theorem pyLstrip_decomp (l : List Char) :
    ∃ pre, l = pre ++ pyLstrip l ∧ ∀ c ∈ pre, isPySpace c := by
  induction l with
  | nil => exact ⟨[], rfl, fun c hc => by cases hc⟩
  | cons a r ih =>
      by_cases ha : isPySpace a
      · obtain ⟨pre, hpre, hws⟩ := ih
        refine ⟨a :: pre, ?_, ?_⟩
        · rw [pyLstrip, if_pos ha]
          simpa using hpre
        · intro c hc
          rcases hc with _ | hc
          · exact ha
          · exact hws c (by assumption)
      · refine ⟨[], ?_, fun c hc => by cases hc⟩
        rw [pyLstrip, if_neg ha]
        rfl

/-- `rstrip` removes a whitespace suffix and keeps the rest. -/
theorem pyRstrip_decomp (l : List Char) :
    ∃ suf, l = pyRstrip l ++ suf ∧ ∀ c ∈ suf, isPySpace c := by
  obtain ⟨pre, hpre, hws⟩ := pyLstrip_decomp l.reverse
  refine ⟨pre.reverse, ?_, fun c hc => hws c (List.mem_reverse.mp hc)⟩
  have := congrArg List.reverse hpre
  simpa [pyRstrip] using this

/-- If `strip()` erases the whole line, every character was whitespace. -/
theorem pyStrip_eq_nil_forall (l : List Char) (h : pyStrip l = []) :
    ∀ c ∈ l, isPySpace c := by
  intro c hc
  obtain ⟨suf, hsuf, hws⟩ := pyRstrip_decomp l
  rw [hsuf] at hc
  rcases List.mem_append.mp hc with hin | hin
  · exact pyLstrip_eq_nil_forall _ h c hin
  · exact hws c hin

/-- A whitespace-only list splits into no tokens. -/
theorem splitWsAux_all_ws (l : List Char) (h : ∀ c ∈ l, isPySpace c) :
    splitWsAux l [] = [] := by
  induction l with
  | nil => rfl
  | cons a r ih =>
      have ha : isPySpace a = true := h a (by simp)
      rw [splitWsAux, if_pos ha, if_pos rfl]
      exact ih fun c hc => h c (by simp [hc])

/-- A line with at least one token does not strip to the empty string. -/
theorem pyStrip_ne_nil_of_splitWs (line : List Char)
    (h : pySplitWs line ≠ []) : pyStrip line ≠ [] := by
  intro hnil
  exact h (splitWsAux_all_ws line (pyStrip_eq_nil_forall line hnil))

/-- C8: `parse_snapshots_output` skips every line with fewer than 4
whitespace-delimited tokens (the per-line function is total and returns no
record there), and every record in the parsed result comes from a
post-header line with at least 4 tokens. -/
theorem c8_short_lines_skipped (output : List Char) :
    (∀ line : List Char, (pySplitWs line).length < 4 → lineRecord line = none) ∧
    (∀ r ∈ parse_snapshots_output output,
      ∃ line ∈ (pySplitNl (pyStrip output)).drop 2,
        4 ≤ (pySplitWs line).length ∧ lineRecord line = some r) := by
  constructor
  · intro line hlen
    unfold lineRecord
    split_ifs with h1 h2
    · rfl
    · exact absurd h2 (by omega)
    · rfl
  · intro r hr
    rw [parse_snapshots_output] at hr
    obtain ⟨line, hline, heq⟩ := List.mem_filterMap.mp hr
    refine ⟨line, hline, ?_, heq⟩
    by_contra hlt
    rw [lineRecord] at heq
    split_ifs at heq

/-- C8 witness: an output whose body has one 6-token row and one 2-token
row; the single parsed record comes from the 6-token row. -/
theorem c8_short_lines_skipped_witness :
    SnapshotRecord.mk (strL "abcd1234") (strL "2024-01-01 10:00:00") (strL "1.2 GiB") ∈
      parse_snapshots_output
        (strL "h1\nh2\nabcd1234 2024-01-01 10:00:00 host 1.2 GiB\nshort row") ∧
    ∃ line ∈ (pySplitNl (pyStrip
        (strL "h1\nh2\nabcd1234 2024-01-01 10:00:00 host 1.2 GiB\nshort row"))).drop 2,
      4 ≤ (pySplitWs line).length ∧
      lineRecord line = some (SnapshotRecord.mk (strL "abcd1234")
        (strL "2024-01-01 10:00:00") (strL "1.2 GiB")) :=
  ⟨by decide,
    (c8_short_lines_skipped
        (strL "h1\nh2\nabcd1234 2024-01-01 10:00:00 host 1.2 GiB\nshort row")).2
      (SnapshotRecord.mk (strL "abcd1234") (strL "2024-01-01 10:00:00") (strL "1.2 GiB"))
      (by decide)⟩

/-- C10: for a row tokenized as `t0 :: t1 :: t2 :: t3 :: rest` (at least 4
tokens), the record is `{snapshot_id := t0, date := t1 ++ " " ++ t2,
size := ' '.join of the first two of rest}`; with exactly 4 tokens the size
is the empty string; token 3 never influences the record; and the parsing
loop indeed produces exactly this record for any such line. -/
theorem c10_record_fields (t0 t1 t2 t3 : List Char) (rest : List (List Char)) :
    mkSnapshotRecord (t0 :: t1 :: t2 :: t3 :: rest)
      = ⟨t0, t1 ++ ' ' :: t2, joinSp (rest.take 2)⟩ ∧
    (rest = [] → (mkSnapshotRecord [t0, t1, t2, t3]).size = []) ∧
    (∀ u : List Char,
      mkSnapshotRecord (t0 :: t1 :: t2 :: u :: rest)
        = mkSnapshotRecord (t0 :: t1 :: t2 :: t3 :: rest)) ∧
    (∀ line : List Char, pySplitWs line = t0 :: t1 :: t2 :: t3 :: rest →
      lineRecord line = some (mkSnapshotRecord (t0 :: t1 :: t2 :: t3 :: rest))) := by
  refine ⟨rfl, fun _ => rfl, fun u => rfl, ?_⟩
  intro line hsplit
  have hne : pyStrip line ≠ [] := by
    apply pyStrip_ne_nil_of_splitWs
    rw [hsplit]
    simp
  rw [lineRecord, if_neg (by exact hne), hsplit]
  rw [if_pos (by simp)]

/-- C10 witness: the theorem applied to the concrete 4-token row
`"abcd1234 2024-01-01 10:00:00 host"`: its size field is empty. -/
theorem c10_record_fields_witness :
    ([] : List (List Char)) = [] ∧
    (mkSnapshotRecord [strL "abcd1234", strL "2024-01-01", strL "10:00:00",
      strL "host"]).size = [] :=
  ⟨rfl,
    (c10_record_fields (strL "abcd1234") (strL "2024-01-01") (strL "10:00:00")
        (strL "host") []).2.1 rfl⟩

/-! ## Dictionary primitives (Python `dict` over string keys)

Used for the backup-log directory (file name → contents) and the password
store.  `dictSet` mirrors `d[k] = v`: an existing key keeps its position
and gets the new value, a fresh key is appended (insertion order). -/

/-- Python `d[k] = v` on an insertion-ordered association list. -/
def dictSet : List (List Char × List Char) → List Char → List Char →
    List (List Char × List Char)
  | [], k, v => [(k, v)]
  | (k', v') :: rest, k, v =>
      if k' = k then (k, v) :: rest else (k', v') :: dictSet rest k v

/-- Python `d.get(k)`. -/
def lookupD : List (List Char × List Char) → List Char → Option (List Char)
  | [], _ => none
  | (k', v') :: rest, k => if k' = k then some v' else lookupD rest k

/-- Looking up the key just set returns the value just stored. -/
theorem lookupD_dictSet_self (d : List (List Char × List Char))
    (k v : List Char) : lookupD (dictSet d k v) k = some v := by
  induction d with
  | nil => simp [dictSet, lookupD]
  | cons e rest ih =>
      obtain ⟨k', v'⟩ := e
      by_cases h : k' = k
      · simp [dictSet, h, lookupD]
      · simp [dictSet, h, lookupD, ih]

/-- Setting one key leaves lookups of every other key unchanged. -/
theorem lookupD_dictSet_other (d : List (List Char × List Char))
    (k v k' : List Char) (h : k' ≠ k) :
    lookupD (dictSet d k v) k' = lookupD d k' := by
  induction d with
  | nil =>
      simp [dictSet, lookupD]
      exact fun he => h he.symm
  | cons e rest ih =>
      obtain ⟨k0, v0⟩ := e
      by_cases h0 : k0 = k
      · subst h0
        have hne : ¬ k0 = k' := fun he => h he.symm
        simp [dictSet, lookupD, hne]
      · simp [dictSet, h0, lookupD, ih]

/-! ## C3/C5: `generate_backup_stream` (`src/utils.py` lines 129-163)

Per output line (readline keeps the trailing newline): collect the line,
and when the lowercased line contains both `'snapshot'` and `'saved'`, run
`re.search(r'snapshot ([a-f0-9]{8})', line)` on the raw line; a match
overwrites `snapshot_id`.  After the loop, if an id was extracted and the
process exited 0, `f.writelines(output_lines)` persists the concatenated
raw lines under `~/.restic-api/backup_logs/<id>.txt`. -/

/-- Python's `str.lower()` (ASCII case folding on these inputs). -/
def pyLower (l : List Char) : List Char :=
  l.map Char.toLower

/-- Python's substring test `pat in s`. -/
def containsSub (pat : List Char) : List Char → Bool
  | [] => pat.isEmpty
  | c :: r => pat.isPrefixOf (c :: r) || containsSub pat r

/-- A lowercase hexadecimal digit, the character class `[a-f0-9]`. -/
def isHexLower (c : Char) : Bool :=
  ('a' ≤ c && c ≤ 'f') || ('0' ≤ c && c ≤ '9')

/-- Try the pattern `snapshot ([a-f0-9]{8})` anchored at this position:
the 9-character literal `"snapshot "` followed by exactly 8 hex digits
(group 1). -/
def snapMatchAt (s : List Char) : Option (List Char) :=
  if (strL "snapshot ").isPrefixOf s then
    let grp := (s.drop 9).take 8
    if grp.length = 8 && grp.all isHexLower then some grp else none
  else none

/-- `re.search` for the pattern: scan left to right, return the first
position's group. -/
def reSearchSnap : List Char → Option (List Char)
  | [] => none
  | c :: r =>
      match snapMatchAt (c :: r) with
      | some m => some m
      | none => reSearchSnap r

/-- The per-line id update of `generate_backup_stream` (lines 143-146): only
lines whose lowercase form contains both `'snapshot'` and `'saved'` are
searched, on the raw (case-sensitive) text; `none` means `snapshot_id`
keeps its previous value. -/
def lineExtract (line : List Char) : Option (List Char) :=
  if containsSub (strL "snapshot") (pyLower line)
      && containsSub (strL "saved") (pyLower line) then
    reSearchSnap line
  else none

/-- `b <|> a` for the id accumulator: a new match wins, otherwise keep. -/
def optOr (a b : Option (List Char)) : Option (List Char) :=
  match a with
  | some x => some x
  | none => b

/-- One iteration of the backup stream loop: skip empty reads, collect the
line, update the extracted id. -/
def backupScanStep (acc : List (List Char) × Option (List Char))
    (line : List Char) : List (List Char) × Option (List Char) :=
  if line = [] then acc
  else (acc.1 ++ [line], optOr (lineExtract line) acc.2)

/-- The full loop: collected `output_lines` and final `snapshot_id`. -/
def backupScan (lines : List (List Char)) :
    List (List Char) × Option (List Char) :=
  lines.foldl backupScanStep ([], none)

/-- The single terminal event
`{'completed': True, 'success': returncode == 0, 'snapshot_id': ...}`. -/
structure TerminalEvent where
  completed : Bool
  success : Bool
  snapshot_id : Option (List Char)
  deriving DecidableEq, Repr

/-- Observable result of one `generate_backup_stream` run. -/
structure BackupStreamResult where
  outputs : List (List Char)
  terminal : TerminalEvent
  savedLog : Option (List Char × List Char)
  deriving DecidableEq, Repr

/-- `generate_backup_stream` over the subprocess's output lines and exit
code: the log file is written only when an id was extracted and the exit
code is 0, and holds the concatenation of the raw collected lines. -/
def generate_backup_stream (lines : List (List Char)) (returncode : Int) :
    BackupStreamResult :=
  let s := backupScan lines
  { outputs := s.1
    terminal := ⟨true, returncode == 0, s.2⟩
    savedLog :=
      match s.2 with
      | some sid => if returncode = 0 then some (sid, s.1.flatten) else none
      | none => none }

/-- Writing the log file into the `backup_logs` directory (keyed map). -/
def writeLogFile (logs : List (List Char × List Char)) :
    Option (List Char × List Char) → List (List Char × List Char)
  | none => logs
  | some (k, c) => dictSet logs k c

/-- Log retrieval (`src/backup.py` lines 136-144, `is_logs=1`): return the
file's contents, or the fixed placeholder when no file exists. -/
def retrieveLog (logs : List (List Char × List Char)) (backup_id : List Char) :
    List Char :=
  match lookupD logs backup_id with
  | some c => c
  | none => strL "No logs found for this backup"

/-- The id accumulator of the loop folds `optOr` over the per-line
extractions. -/
theorem backupScan_snd_fold (lines : List (List Char)) :
    ∀ acc : List (List Char) × Option (List Char),
      (lines.foldl backupScanStep acc).2
        = lines.foldl (fun a l => optOr (lineExtract l) a) acc.2 := by
  induction lines with
  | nil => intro acc; rfl
  | cons l ls ih =>
      intro acc
      have hstep : (backupScanStep acc l).2 = optOr (lineExtract l) acc.2 := by
        by_cases h : l = []
        · subst h
          simp [backupScanStep, lineExtract, containsSub, strL, pyLower, optOr]
        · simp [backupScanStep, h]
      simp only [List.foldl_cons, ih, hstep]

/-- Any extracted id originates from some line of the stream. -/
theorem backupScan_snd_origin (lines : List (List Char)) (sid : List Char) :
    ∀ acc : List (List Char) × Option (List Char),
      (lines.foldl backupScanStep acc).2 = some sid →
      (∃ line ∈ lines, lineExtract line = some sid) ∨ acc.2 = some sid := by
  induction lines with
  | nil => intro acc h; exact Or.inr h
  | cons l ls ih =>
      intro acc h
      rcases ih (backupScanStep acc l) h with hin | hacc
      · obtain ⟨line, hline, hex⟩ := hin
        exact Or.inl ⟨line, by simp [hline], hex⟩
      · by_cases hl : l = []
        · subst hl
          refine Or.inr ?_
          simpa [backupScanStep] using hacc
        · rw [backupScanStep, if_neg hl] at hacc
          cases hext : lineExtract l with
          | some m =>
              refine Or.inl ⟨l, by simp, ?_⟩
              rw [hext]
              simpa [optOr, hext] using hacc
          | none =>
              refine Or.inr ?_
              simpa [optOr, hext] using hacc

/-- C3 counterexample: the line `"snapshot deadbeef"` contains the word
`snapshot` immediately followed by an 8-hex token (so the claim demands
extraction), yet the code extracts nothing because the line lacks the word
`'saved'`; likewise `"SNAPSHOT deadbeef saved"` matches the claimed pattern
case-insensitively, yet the case-sensitive regex extracts nothing. -/
theorem c3_marker_without_saved_not_extracted :
    reSearchSnap (pyLower (strL "snapshot deadbeef")) = some (strL "deadbeef") ∧
    lineExtract (strL "snapshot deadbeef") = none ∧
    (backupScan [strL "snapshot deadbeef"]).2 = none ∧
    reSearchSnap (pyLower (strL "SNAPSHOT deadbeef saved")) = some (strL "deadbeef") ∧
    lineExtract (strL "SNAPSHOT deadbeef saved") = none := by
  refine ⟨by decide, by decide, by decide, by decide, by decide⟩

/-- C3 amended: an id is extracted from a line exactly when the lowercased
line contains both `'snapshot'` and `'saved'` and the raw line matches the
case-sensitive pattern `snapshot ([a-f0-9]{8})`; any id finally held comes
from such a line; and when an id was extracted and the process exits 0, all
collected output lines are persisted as one log keyed by that id. -/
theorem c3_extraction_characterization (lines : List (List Char)) (rc : Int)
    (sid : List Char) :
    (∀ line : List Char, lineExtract line = some sid →
      containsSub (strL "snapshot") (pyLower line) = true ∧
      containsSub (strL "saved") (pyLower line) = true ∧
      reSearchSnap line = some sid) ∧
    ((backupScan lines).2 = some sid → ∃ line ∈ lines, lineExtract line = some sid) ∧
    ((backupScan lines).2 = some sid → rc = 0 →
      (generate_backup_stream lines rc).savedLog
        = some (sid, (backupScan lines).1.flatten)) := by
  refine ⟨?_, ?_, ?_⟩
  · intro line h
    rw [lineExtract] at h
    split_ifs at h with hmark
    have hpair := Bool.and_eq_true_iff.mp hmark
    exact ⟨hpair.1, hpair.2, h⟩
  · intro h
    rcases backupScan_snd_origin lines sid ([], none) h with hin | hacc
    · exact hin
    · cases hacc
  · intro h hrc
    subst hrc
    simp [generate_backup_stream, h]

/-- C3 witness: the amended theorem applied to the single line
`"snapshot saved deadbeef1234...\n"`-style concrete stream. -/
theorem c3_extraction_characterization_witness :
    (backupScan [strL "snapshot deadbeef saved\n"]).2 = some (strL "deadbeef") ∧
    (∃ line ∈ [strL "snapshot deadbeef saved\n"],
      lineExtract line = some (strL "deadbeef")) ∧
    (generate_backup_stream [strL "snapshot deadbeef saved\n"] 0).savedLog
      = some (strL "deadbeef", (backupScan [strL "snapshot deadbeef saved\n"]).1.flatten) :=
  ⟨by decide,
    (c3_extraction_characterization [strL "snapshot deadbeef saved\n"] 0
      (strL "deadbeef")).2.1 (by decide),
    (c3_extraction_characterization [strL "snapshot deadbeef saved\n"] 0
      (strL "deadbeef")).2.2 (by decide) rfl⟩

/-- C5: for a successful backup (exit 0) from which an id was extracted, the
terminal event reports exactly that id, the log is persisted under that id,
and retrieving the log by that id returns exactly the concatenation of the
collected output lines. -/
theorem c5_log_roundtrip (logs : List (List Char × List Char))
    (lines : List (List Char)) (rc : Int) (sid : List Char)
    (hrc : rc = 0) (hsid : (backupScan lines).2 = some sid) :
    (generate_backup_stream lines rc).terminal.snapshot_id = some sid ∧
    (generate_backup_stream lines rc).savedLog
      = some (sid, (backupScan lines).1.flatten) ∧
    retrieveLog (writeLogFile logs ((generate_backup_stream lines rc).savedLog)) sid
      = (backupScan lines).1.flatten := by
  subst hrc
  have hsave : (generate_backup_stream lines 0).savedLog
      = some (sid, (backupScan lines).1.flatten) := by
    simp [generate_backup_stream, hsid]
  refine ⟨by simp [generate_backup_stream, hsid], hsave, ?_⟩
  rw [hsave, writeLogFile, retrieveLog, lookupD_dictSet_self]

/-- C5 witness: the round trip on the concrete one-line backup stream
`"snapshot deadbeef saved\n"` against an empty log directory. -/
theorem c5_log_roundtrip_witness :
    (0 : Int) = 0 ∧
    (backupScan [strL "snapshot deadbeef saved\n"]).2 = some (strL "deadbeef") ∧
    retrieveLog
      (writeLogFile []
        ((generate_backup_stream [strL "snapshot deadbeef saved\n"] 0).savedLog))
      (strL "deadbeef")
      = (backupScan [strL "snapshot deadbeef saved\n"]).1.flatten :=
  ⟨rfl, by decide,
    (c5_log_roundtrip [] [strL "snapshot deadbeef saved\n"] 0 (strL "deadbeef")
      rfl (by decide)).2.2⟩

/-! ## C9: the password store (`src/utils.py` lines 32-49)

`load_password_store` iterates the file's lines (each line from file
iteration keeps its trailing newline), keeps lines containing `'='`, and
builds `dict(line.strip().split('=', 1) ...)`.  `save_password_to_store`
loads the store, sets `store[key] = password`, and rewrites the file as
`f"{k}={v}\n"` lines.  `get_password_from_key` is a plain lookup. -/

/-- Python file iteration: split after each `'\n'` (kept in the line); a
final segment without a newline is its own line; no empty trailing line. -/
def readLinesAux : List Char → List Char → List (List Char)
  | [], acc => if acc = [] then [] else [acc.reverse]
  | c :: r, acc =>
      if c = '\n' then (acc.reverse ++ ['\n']) :: readLinesAux r []
      else readLinesAux r (c :: acc)

/-- The lines of a file's raw contents. -/
def readLines (content : List Char) : List (List Char) :=
  readLinesAux content []

/-- Python's `s.split('=', 1)` on a string containing `'='`: the part before
the first `'='` and everything after it. -/
def splitEq1 : List Char → List Char × List Char
  | [] => ([], [])
  | c :: r =>
      if c = '=' then ([], r)
      else (c :: (splitEq1 r).1, (splitEq1 r).2)

/-- One line of `load_password_store`'s dict comprehension: lines without
`'='` are dropped, others are stripped and split at the first `'='`. -/
def loadStep (d : List (List Char × List Char)) (line : List Char) :
    List (List Char × List Char) :=
  if '=' ∈ line then
    dictSet d (splitEq1 (pyStrip line)).1 (splitEq1 (pyStrip line)).2
  else d

/-- `load_password_store` over the store file's raw contents. -/
def load_password_store (content : List Char) : List (List Char × List Char) :=
  (readLines content).foldl loadStep []

/-- Serialize the store dict back to `f"{k}={v}\n"` lines. -/
def serializeStore (d : List (List Char × List Char)) : List Char :=
  (d.map (fun e => e.1 ++ '=' :: e.2 ++ ['\n'])).flatten

/-- `save_password_to_store`: read-modify-write of the whole store file. -/
def save_password_to_store (content key password : List Char) : List Char :=
  serializeStore (dictSet (load_password_store content) key password)

/-- `get_password_from_key`. -/
def get_password_from_key (content key : List Char) : Option (List Char) :=
  lookupD (load_password_store content) key

/-- A list that does not start with whitespace (`lstrip` leaves it alone). -/
def leadOk : List Char → Bool
  | [] => true
  | c :: _ => !isPySpace c

/-- A list that does not end with whitespace (`rstrip` leaves it alone). -/
def trailOk (l : List Char) : Bool :=
  leadOk l.reverse

/-- `lstrip` output never starts with whitespace. -/
theorem leadOk_pyLstrip (l : List Char) : leadOk (pyLstrip l) = true := by
  induction l with
  | nil => rfl
  | cons c r ih =>
      by_cases hc : isPySpace c
      · rw [pyLstrip, if_pos hc]; exact ih
      · rw [pyLstrip, if_neg hc, leadOk]
        simpa using hc

/-- `lstrip` is the identity on lists not starting with whitespace. -/
theorem pyLstrip_of_leadOk (l : List Char) (h : leadOk l = true) :
    pyLstrip l = l := by
  cases l with
  | nil => rfl
  | cons c r =>
      rw [leadOk] at h
      rw [pyLstrip, if_neg (by simpa using h)]

/-- `rstrip` output never ends with whitespace. -/
theorem trailOk_pyRstrip (l : List Char) : trailOk (pyRstrip l) = true := by
  rw [trailOk, pyRstrip, List.reverse_reverse]
  exact leadOk_pyLstrip _

/-- `rstrip` is the identity on lists not ending with whitespace. -/
theorem pyRstrip_of_trailOk (l : List Char) (h : trailOk l = true) :
    pyRstrip l = l := by
  rw [pyRstrip, pyLstrip_of_leadOk _ h, List.reverse_reverse]

/-- `lstrip` preserves not-ending-with-whitespace. -/
theorem trailOk_pyLstrip (l : List Char) (h : trailOk l = true) :
    trailOk (pyLstrip l) = true := by
  induction l with
  | nil => exact h
  | cons c r ih =>
      by_cases hc : isPySpace c
      · rw [pyLstrip, if_pos hc]
        cases r with
        | nil => rfl
        | cons x t =>
            apply ih
            rw [trailOk] at h ⊢
            rw [List.reverse_cons] at h
            rcases hrev : (x :: t).reverse with _ | ⟨y, ys⟩
            · exact absurd hrev (by simp)
            · rw [hrev] at h
              simpa [leadOk] using h
      · rw [pyLstrip, if_neg hc]
        exact h

/-- `strip` output never ends with whitespace. -/
theorem trailOk_pyStrip (l : List Char) : trailOk (pyStrip l) = true :=
  trailOk_pyLstrip _ (trailOk_pyRstrip l)

/-- `strip` output never starts with whitespace. -/
theorem leadOk_pyStrip (l : List Char) : leadOk (pyStrip l) = true :=
  leadOk_pyLstrip _

/-- How `lstrip` acts on a concatenation. -/
theorem pyLstrip_append (a b : List Char) :
    pyLstrip (a ++ b)
      = if pyLstrip a = [] then pyLstrip b else pyLstrip a ++ b := by
  induction a with
  | nil => simp [pyLstrip]
  | cons c r ih =>
      by_cases hc : isPySpace c
      · simp only [List.cons_append, pyLstrip, if_pos hc]
        exact ih
      · simp only [List.cons_append, pyLstrip, if_neg hc]
        simp

/-- `rstrip` of a serialized store line keeps the key and separator intact
and right-strips only the value. -/
theorem pyRstrip_line (k v : List Char) :
    pyRstrip (k ++ '=' :: v ++ ['\n']) = k ++ '=' :: pyRstrip v := by
  rw [pyRstrip]
  have hrev : (k ++ '=' :: v ++ ['\n']).reverse
      = '\n' :: (v.reverse ++ '=' :: k.reverse) := by
    simp
  rw [hrev, pyLstrip, if_pos (by decide)]
  rw [pyLstrip_append]
  by_cases hv : pyLstrip v.reverse = []
  · rw [if_pos hv, pyLstrip, if_neg (by decide)]
    have : pyRstrip v = [] := by
      rw [pyRstrip, hv]
      rfl
    rw [this]
    simp
  · rw [if_neg hv]
    rw [pyRstrip]
    simp

/-- `strip` of a serialized store line, for a key that does not start with
whitespace: the trailing newline and the value's trailing whitespace go,
nothing else. -/
theorem pyStrip_line (k v : List Char) (hk : leadOk k = true) :
    pyStrip (k ++ '=' :: v ++ ['\n']) = k ++ '=' :: pyRstrip v := by
  rw [pyStrip, pyRstrip_line]
  apply pyLstrip_of_leadOk
  cases k with
  | nil => rfl
  | cons c r =>
      rw [leadOk] at hk
      simpa [leadOk] using hk

/-- `split('=', 1)` after a key free of `'='`: the first component is the
key, the second everything after the separator. -/
theorem splitEq1_append (k v : List Char) (hk : '=' ∉ k) :
    splitEq1 (k ++ '=' :: v) = (k, v) := by
  induction k with
  | nil => simp [splitEq1]
  | cons c r ih =>
      have hc : c ≠ '=' := fun he => hk (by simp [he])
      have hr : '=' ∉ r := fun he => hk (by simp [he])
      simp only [List.cons_append, splitEq1, if_neg hc]
      rw [show r.append ('=' :: v) = r ++ '=' :: v from rfl, ih hr]

/-- Any string containing `'='` decomposes around its first `'='` as told by
`splitEq1`. -/
theorem splitEq1_decomp (s : List Char) (h : '=' ∈ s) :
    s = (splitEq1 s).1 ++ '=' :: (splitEq1 s).2 ∧ '=' ∉ (splitEq1 s).1 := by
  induction s with
  | nil => cases h
  | cons c r ih =>
      by_cases hc : c = '='
      · subst hc
        rw [splitEq1, if_pos rfl]
        exact ⟨by simp, by simp⟩
      · have hr : '=' ∈ r := by
          rcases h with _ | h
          · exact absurd rfl hc
          · assumption
        obtain ⟨hdec, hnot⟩ := ih hr
        rw [splitEq1, if_neg hc]
        constructor
        · simpa using congrArg (List.cons c) hdec
        · intro hmem
          rcases hmem with _ | hmem
          · exact hc rfl
          · exact hnot (by assumption)

/-- A non-head position survives: `leadOk` of a concatenation constrains the
first part. -/
theorem leadOk_of_append (k rest : List Char) (h : leadOk (k ++ rest) = true) :
    leadOk k = true := by
  cases k with
  | nil => rfl
  | cons c r => simpa [leadOk] using h

/-- `trailOk` of a concatenation constrains the second part (when it is
non-empty). -/
theorem trailOk_of_append (a b : List Char) (h : trailOk (a ++ b) = true) :
    trailOk b = true := by
  cases b with
  | nil => rfl
  | cons x t =>
      rw [trailOk] at h ⊢
      rw [List.reverse_append] at h
      rcases hrev : (x :: t).reverse with _ | ⟨y, ys⟩
      · exact absurd hrev (by simp)
      · rw [hrev] at h
        simpa [leadOk] using h

/-- `lstrip` only removes characters. -/
theorem mem_of_mem_pyLstrip (c : Char) (l : List Char) (h : c ∈ pyLstrip l) :
    c ∈ l := by
  induction l with
  | nil => exact h
  | cons a r ih =>
      by_cases ha : isPySpace a
      · rw [pyLstrip, if_pos ha] at h
        exact List.mem_cons_of_mem a (ih h)
      · rw [pyLstrip, if_neg ha] at h
        exact h

/-- `rstrip` only removes characters. -/
theorem mem_of_mem_pyRstrip (c : Char) (l : List Char) (h : c ∈ pyRstrip l) :
    c ∈ l := by
  rw [pyRstrip, List.mem_reverse] at h
  exact List.mem_reverse.mp (mem_of_mem_pyLstrip c l.reverse h)

/-- `strip` only removes characters. -/
theorem mem_of_mem_pyStrip (c : Char) (l : List Char) (h : c ∈ pyStrip l) :
    c ∈ l :=
  mem_of_mem_pyRstrip c l (mem_of_mem_pyLstrip c (pyRstrip l) h)

/-- `lstrip` keeps every non-whitespace character. -/
theorem mem_pyLstrip_of_mem (c : Char) (l : List Char) (hc : isPySpace c = false)
    (h : c ∈ l) : c ∈ pyLstrip l := by
  induction l with
  | nil => exact h
  | cons a r ih =>
      by_cases ha : isPySpace a
      · rw [pyLstrip, if_pos ha]
        rcases h with _ | h
        · rw [ha] at hc; cases hc
        · exact ih (by assumption)
      · rw [pyLstrip, if_neg ha]
        exact h

/-- `rstrip` keeps every non-whitespace character. -/
theorem mem_pyRstrip_of_mem (c : Char) (l : List Char) (hc : isPySpace c = false)
    (h : c ∈ l) : c ∈ pyRstrip l := by
  rw [pyRstrip, List.mem_reverse]
  exact mem_pyLstrip_of_mem c l.reverse hc (List.mem_reverse.mpr h)

/-- `strip` keeps every non-whitespace character; in particular `'='`. -/
theorem mem_pyStrip_of_mem (c : Char) (l : List Char) (hc : isPySpace c = false)
    (h : c ∈ l) : c ∈ pyStrip l :=
  mem_pyLstrip_of_mem c (pyRstrip l) hc (mem_pyRstrip_of_mem c l hc h)

/-- Dropping a trailing newline commutes with `rstrip`. -/
theorem pyRstrip_append_nl (a : List Char) :
    pyRstrip (a ++ ['\n']) = pyRstrip a := by
  rw [pyRstrip, pyRstrip, List.reverse_append]
  simp only [List.reverse_cons, List.reverse_nil, List.nil_append,
    List.singleton_append]
  rw [pyLstrip, if_pos (by decide)]

/-- Every line produced by file iteration is newline-free except possibly
for a single trailing newline. -/
theorem readLinesAux_shape (content : List Char) :
    ∀ acc : List Char, '\n' ∉ acc →
      ∀ line ∈ readLinesAux content acc,
        ∃ body : List Char, '\n' ∉ body ∧ (line = body ++ ['\n'] ∨ line = body) := by
  induction content with
  | nil =>
      intro acc hacc line hline
      rw [readLinesAux] at hline
      by_cases h : acc = []
      · rw [if_pos h] at hline
        cases hline
      · rw [if_neg h] at hline
        have : line = acc.reverse := by simpa using hline
        exact ⟨acc.reverse, by simpa using hacc, Or.inr this⟩
  | cons c r ih =>
      intro acc hacc line hline
      by_cases hc : c = '\n'
      · rw [readLinesAux, if_pos hc] at hline
        rcases hline with _ | hline
        · exact ⟨acc.reverse, by simpa using hacc, Or.inl rfl⟩
        · exact ih [] (by simp) line (by assumption)
      · rw [readLinesAux, if_neg hc] at hline
        refine ih (c :: acc) ?_ line hline
        intro hmem
        rcases hmem with _ | hmem
        · exact hc rfl
        · exact hacc (by assumption)

/-- After `strip`, no line of a file contains a newline. -/
theorem nl_not_mem_pyStrip_line (content line : List Char)
    (h : line ∈ readLines content) : '\n' ∉ pyStrip line := by
  obtain ⟨body, hbody, hshape⟩ := readLinesAux_shape content [] (by simp) line h
  intro hmem
  rcases hshape with hnl | hid
  · rw [hnl, pyStrip, pyRstrip_append_nl] at hmem
    exact hbody (mem_of_mem_pyStrip '\n' body hmem)
  · rw [hid] at hmem
    exact hbody (mem_of_mem_pyStrip '\n' body hmem)

/-- File iteration cuts a serialized line off at its newline. -/
theorem readLinesAux_line (xs rest : List Char) (h : '\n' ∉ xs) :
    ∀ acc : List Char,
      readLinesAux (xs ++ '\n' :: rest) acc
        = ((acc.reverse ++ xs) ++ ['\n']) :: readLinesAux rest [] := by
  induction xs with
  | nil =>
      intro acc
      rw [List.nil_append, readLinesAux, if_pos rfl]
      simp
  | cons x t ih =>
      intro acc
      have hx : ¬ x = '\n' := fun he => h (by simp [he])
      rw [List.cons_append, readLinesAux, if_neg hx,
        ih (fun he => h (by simp [he])) (x :: acc)]
      simp

/-- Membership in `dictSet`: the new pair or an old entry. -/
theorem mem_dictSet (d : List (List Char × List Char)) (k v : List Char)
    (e : List Char × List Char) (h : e ∈ dictSet d k v) :
    e = (k, v) ∨ e ∈ d := by
  induction d with
  | nil => simpa [dictSet] using h
  | cons e0 rest ih =>
      obtain ⟨k0, v0⟩ := e0
      by_cases h0 : k0 = k
      · rw [dictSet, if_pos h0] at h
        rcases h with _ | h
        · exact Or.inl rfl
        · exact Or.inr (List.mem_cons_of_mem _ (by assumption))
      · rw [dictSet, if_neg h0] at h
        rcases h with _ | h
        · exact Or.inr (List.mem_cons_self _ _)
        · rcases ih (by assumption) with hnew | hold
          · exact Or.inl hnew
          · exact Or.inr (List.mem_cons_of_mem _ hold)

/-- The keys of a store, in order. -/
def keysOf (d : List (List Char × List Char)) : List (List Char) :=
  d.map Prod.fst

/-- A key of `dictSet`: the new key or an old one. -/
theorem mem_keysOf_dictSet (d : List (List Char × List Char)) (k v x : List Char)
    (h : x ∈ keysOf (dictSet d k v)) : x = k ∨ x ∈ keysOf d := by
  rw [keysOf] at h
  obtain ⟨e, he, hx⟩ := List.mem_map.mp h
  rcases mem_dictSet d k v e he with hnew | hold
  · exact Or.inl (by rw [hnew] at hx; exact hx.symm ▸ rfl)
  · exact Or.inr (by rw [keysOf]; exact List.mem_map.mpr ⟨e, hold, hx⟩)

/-- `dictSet` keeps the keys duplicate-free. -/
theorem keysOf_dictSet_nodup (d : List (List Char × List Char)) (k v : List Char)
    (h : (keysOf d).Nodup) : (keysOf (dictSet d k v)).Nodup := by
  induction d with
  | nil => simp [dictSet, keysOf]
  | cons e0 rest ih =>
      obtain ⟨k0, v0⟩ := e0
      rw [keysOf, List.map_cons, List.nodup_cons] at h
      by_cases h0 : k0 = k
      · rw [dictSet, if_pos h0, keysOf, List.map_cons, List.nodup_cons]
        exact ⟨h0 ▸ h.1, h.2⟩
      · rw [dictSet, if_neg h0, keysOf, List.map_cons, List.nodup_cons]
        refine ⟨?_, ih h.2⟩
        intro hmem
        rcases mem_keysOf_dictSet rest k v k0 hmem with he | hold
        · exact h0 he
        · exact h.1 hold

/-- The password store loaded from any file has duplicate-free keys. -/
theorem keysOf_load_nodup (content : List Char) :
    (keysOf (load_password_store content)).Nodup := by
  rw [load_password_store]
  have : ∀ (lines : List (List Char)) (init : List (List Char × List Char)),
      (keysOf init).Nodup → (keysOf (lines.foldl loadStep init)).Nodup := by
    intro lines
    induction lines with
    | nil => intro init h; exact h
    | cons l ls ih =>
        intro init h
        refine ih _ ?_
        rw [loadStep]
        by_cases hl : '=' ∈ l
        · rw [if_pos hl]
          exact keysOf_dictSet_nodup _ _ _ h
        · rw [if_neg hl]
          exact h
  exact this _ [] (by simp [keysOf])

/-- What `serializeStore` needs of an entry so its line reads back exactly:
key free of `'='` and newlines and not starting with whitespace, value free
of newlines. -/
def serWF (e : List Char × List Char) : Prop :=
  '=' ∉ e.1 ∧ '\n' ∉ e.1 ∧ leadOk e.1 = true ∧ '\n' ∉ e.2

/-- Every entry parsed out of a store file is serializable, and its value
additionally carries no trailing whitespace (it came out of `strip`). -/
theorem load_entryWF (content : List Char) :
    ∀ e ∈ load_password_store content, serWF e ∧ trailOk e.2 = true := by
  rw [load_password_store]
  have main : ∀ (lines : List (List Char)),
      (∀ line ∈ lines, '\n' ∉ pyStrip line) →
      ∀ (init : List (List Char × List Char)),
        (∀ e ∈ init, serWF e ∧ trailOk e.2 = true) →
        ∀ e ∈ lines.foldl loadStep init, serWF e ∧ trailOk e.2 = true := by
    intro lines
    induction lines with
    | nil => intro _ init h e he; exact h e he
    | cons l ls ih =>
        intro hlines init hinit e he
        refine ih (fun x hx => hlines x (by simp [hx])) (loadStep init l) ?_ e he
        intro e' he'
        rw [loadStep] at he'
        by_cases hl : '=' ∈ l
        · rw [if_pos hl] at he'
          rcases mem_dictSet _ _ _ _ he' with hnew | hold
          · subst hnew
            have hs : '=' ∈ pyStrip l := mem_pyStrip_of_mem '=' l (by decide) hl
            obtain ⟨hdec, hknot⟩ := splitEq1_decomp (pyStrip l) hs
            have hnl : '\n' ∉ pyStrip l := hlines l (by simp)
            refine ⟨⟨hknot, ?_, ?_, ?_⟩, ?_⟩
            · intro hmem
              exact hnl (by rw [hdec]; exact List.mem_append_left _ hmem)
            · have := leadOk_pyStrip l
              rw [hdec] at this
              exact leadOk_of_append _ _ this
            · intro hmem
              refine hnl ?_
              rw [hdec]
              exact List.mem_append_right _ (List.mem_cons_of_mem _ hmem)
            · have := trailOk_pyStrip l
              rw [hdec] at this
              have h2 : trailOk (((splitEq1 (pyStrip l)).1 ++ ['='])
                  ++ (splitEq1 (pyStrip l)).2) = true := by
                simpa using this
              exact trailOk_of_append _ _ h2
          · exact hinit e' hold
        · rw [if_neg hl] at he'
          exact hinit e' he'
  intro e he
  refine main (readLines content) ?_ [] (by simp) e he
  intro line hline
  exact nl_not_mem_pyStrip_line content line hline

/-- Reading back a serialized store: line by line, each entry returns with
its value right-stripped. -/
theorem load_serialize_foldl (d : List (List Char × List Char))
    (hwf : ∀ e ∈ d, serWF e) :
    ∀ init : List (List Char × List Char),
      (readLines (serializeStore d)).foldl loadStep init
        = d.foldl (fun acc e => dictSet acc e.1 (pyRstrip e.2)) init := by
  induction d with
  | nil =>
      intro init
      simp [serializeStore, readLines, readLinesAux]
  | cons e rest ih =>
      intro init
      obtain ⟨k, v⟩ := e
      obtain ⟨hkEq, hkNl, hkLead, hvNl⟩ := hwf (k, v) (List.mem_cons_self _ _)
      have hser : serializeStore ((k, v) :: rest)
          = (k ++ '=' :: v) ++ '\n' :: serializeStore rest := by
        rw [serializeStore, List.map_cons, List.flatten_cons]
        simp [serializeStore]
      have hxs : '\n' ∉ k ++ '=' :: v := by
        intro hmem
        rcases List.mem_append.mp hmem with hin | hin
        · exact hkNl hin
        · have hsplit : ('\n' = '=') ∨ '\n' ∈ v := by simpa using hin
          rcases hsplit with he | hv
          · exact absurd he (by decide)
          · exact hvNl hv
      have hlines : readLines (serializeStore ((k, v) :: rest))
          = (k ++ '=' :: v ++ ['\n']) :: readLines (serializeStore rest) := by
        rw [hser, readLines, readLinesAux_line _ _ hxs []]
        rw [readLines]
        simp
      rw [hlines, List.foldl_cons, List.foldl_cons]
      have hstep : loadStep init (k ++ '=' :: v ++ ['\n'])
          = dictSet init k (pyRstrip v) := by
        rw [loadStep, if_pos (by simp), pyStrip_line k v hkLead,
          splitEq1_append k (pyRstrip v) hkEq]
      rw [hstep]
      exact ih (fun x hx => hwf x (List.mem_cons_of_mem _ hx)) _

/-- With fresh keys throughout, the rebuild fold only appends. -/
theorem dictSet_eq_append (d : List (List Char × List Char)) (k v : List Char)
    (h : k ∉ keysOf d) : dictSet d k v = d ++ [(k, v)] := by
  induction d with
  | nil => rfl
  | cons e0 rest ih =>
      obtain ⟨k0, v0⟩ := e0
      have h0 : ¬ k0 = k := by
        intro he
        exact h (by rw [keysOf, List.map_cons, he]; exact List.mem_cons_self _ _)
      rw [dictSet, if_neg h0, List.cons_append, ih]
      intro hmem
      exact h (by rw [keysOf, List.map_cons]; exact List.mem_cons_of_mem _ hmem)

/-- Rebuilding a duplicate-free store entry by entry right-strips each value
in place. -/
theorem foldl_dictSet_rstrip (d : List (List Char × List Char))
    (hnd : (keysOf d).Nodup) :
    ∀ init : List (List Char × List Char),
      (∀ x ∈ keysOf d, x ∉ keysOf init) →
      d.foldl (fun acc e => dictSet acc e.1 (pyRstrip e.2)) init
        = init ++ d.map (fun e => (e.1, pyRstrip e.2)) := by
  induction d with
  | nil => intro init _; simp
  | cons e rest ih =>
      intro init hdisj
      rw [keysOf, List.map_cons, List.nodup_cons] at hnd
      have hdisj1 : e.1 ∉ keysOf init :=
        hdisj e.1 (by rw [keysOf, List.map_cons]; exact List.mem_cons_self _ _)
      rw [List.foldl_cons, dictSet_eq_append init e.1 (pyRstrip e.2) hdisj1]
      have hdisj2 : ∀ x ∈ keysOf rest,
          x ∉ keysOf (init ++ [(e.1, pyRstrip e.2)]) := by
        intro x hx hmem
        rw [keysOf, List.map_append] at hmem
        rcases List.mem_append.mp hmem with hin | hin
        · have hxc : x ∈ keysOf (e :: rest) := by
            rw [keysOf, List.map_cons]
            exact List.mem_cons_of_mem _ hx
          exact hdisj x hxc hin
        · have hxe : x = e.1 := by simpa using hin
          rw [hxe] at hx
          exact hnd.1 hx
      rw [ih hnd.2 _ hdisj2]
      simp

/-- Lookup through the value-mapped store. -/
theorem lookupD_map_rstrip (d : List (List Char × List Char)) (x : List Char) :
    lookupD (d.map (fun e => (e.1, pyRstrip e.2))) x
      = (lookupD d x).map pyRstrip := by
  induction d with
  | nil => rfl
  | cons e rest ih =>
      obtain ⟨k0, v0⟩ := e
      by_cases h0 : k0 = x
      · simp [lookupD, h0]
      · simp [lookupD, h0, ih]

/-- A successful lookup exhibits its entry. -/
theorem mem_of_lookupD (d : List (List Char × List Char)) (x v : List Char)
    (h : lookupD d x = some v) : (x, v) ∈ d := by
  induction d with
  | nil => cases h
  | cons e rest ih =>
      obtain ⟨k0, v0⟩ := e
      by_cases h0 : k0 = x
      · rw [lookupD, if_pos h0] at h
        obtain rfl : v0 = v := by injection h
        rw [h0]
        exact List.mem_cons_self _ _
      · rw [lookupD, if_neg h0] at h
        exact List.mem_cons_of_mem _ (ih h)

/-- The full read-back of a store after one `save_password_to_store`:
every lookup sees the pre-save mapping with the freshly saved pair applied,
and with each value right-stripped by the load's `line.strip()`. -/
theorem lookup_after_save (content key secret : List Char)
    (hkEq : '=' ∉ key) (hkNl : '\n' ∉ key) (hkLead : leadOk key = true)
    (hsNl : '\n' ∉ secret) (x : List Char) :
    get_password_from_key (save_password_to_store content key secret) x
      = (lookupD (dictSet (load_password_store content) key secret) x).map pyRstrip := by
  have hwfD : ∀ e ∈ dictSet (load_password_store content) key secret, serWF e := by
    intro e he
    rcases mem_dictSet _ _ _ _ he with hnew | hold
    · rw [hnew]
      exact ⟨hkEq, hkNl, hkLead, hsNl⟩
    · exact (load_entryWF content e hold).1
  have hndD : (keysOf (dictSet (load_password_store content) key secret)).Nodup :=
    keysOf_dictSet_nodup _ _ _ (keysOf_load_nodup content)
  rw [get_password_from_key, save_password_to_store, load_password_store,
    load_serialize_foldl _ hwfD [],
    foldl_dictSet_rstrip _ hndD [] (by simp [keysOf]),
    List.nil_append, lookupD_map_rstrip]

/-- C9 counterexample: saving secret `" x"` (leading space) under key `"k"`
into an empty store and looking it up returns `" x"`, not the
whitespace-stripped `"x"` the claim promises — `line.strip()` strips the
whole line, so whitespace after the `'='` separator survives. -/
theorem c9_leading_whitespace_not_stripped :
    get_password_from_key (save_password_to_store [] (strL "k") (strL " x"))
      (strL "k") = some (strL " x") ∧
    pyStrip (strL " x") = strL "x" ∧
    some (strL " x") ≠ some (strL "x") := by
  refine ⟨by decide, by decide, by decide⟩

/-- C9 amended: for a key containing neither `'='` nor a newline and not
starting with whitespace, and a secret containing no newline, looking the
key up after saving returns the secret with only its trailing whitespace
stripped (leading whitespace survives); a second save under the same key
overwrites the first; and lookups under every other key are unchanged by
the save. -/
theorem c9_store_roundtrip (content key secret : List Char)
    (hkEq : '=' ∉ key) (hkNl : '\n' ∉ key) (hkLead : leadOk key = true)
    (hsNl : '\n' ∉ secret) :
    get_password_from_key (save_password_to_store content key secret) key
      = some (pyRstrip secret) ∧
    (∀ k' : List Char, k' ≠ key →
      get_password_from_key (save_password_to_store content key secret) k'
        = get_password_from_key content k') := by
  constructor
  · rw [lookup_after_save content key secret hkEq hkNl hkLead hsNl key,
      lookupD_dictSet_self]
    rfl
  · intro k' hk'
    rw [lookup_after_save content key secret hkEq hkNl hkLead hsNl k',
      lookupD_dictSet_other _ _ _ _ hk', get_password_from_key]
    cases hl : lookupD (load_password_store content) k' with
    | none => rfl
    | some v =>
        have hent := load_entryWF content (k', v) (mem_of_lookupD _ _ _ hl)
        simp [pyRstrip_of_trailOk v hent.2]

/-- C9 witness: the amended theorem on the concrete store file `"a=b\n"`,
key `"k"`, secret `"s"`, and other key `"a"`: the saved secret reads back
and the pre-existing entry is untouched. -/
theorem c9_store_roundtrip_witness :
    ('=' ∉ strL "k") ∧ ('\n' ∉ strL "k") ∧ leadOk (strL "k") = true ∧
    ('\n' ∉ strL "s") ∧ (strL "a" ≠ strL "k") ∧
    get_password_from_key (save_password_to_store (strL "a=b\n") (strL "k") (strL "s"))
      (strL "k") = some (pyRstrip (strL "s")) ∧
    get_password_from_key (save_password_to_store (strL "a=b\n") (strL "k") (strL "s"))
      (strL "a") = get_password_from_key (strL "a=b\n") (strL "a") :=
  ⟨by decide, by decide, by decide, by decide, by decide,
    (c9_store_roundtrip (strL "a=b\n") (strL "k") (strL "s")
      (by decide) (by decide) (by decide) (by decide)).1,
    (c9_store_roundtrip (strL "a=b\n") (strL "k") (strL "s")
      (by decide) (by decide) (by decide) (by decide)).2 (strL "a") (by decide)⟩

end ResticApi
